import Mathlib

/-!
Shallow embedding of the `flat-drop` Rust crate (`src/flat-drop/src/lib.rs`).

The crate provides `FlatDrop<K>`, a wrapper around a container `K`
(`Box<T>`, `Rc<T>`, `Arc<T>`) whose `Drop` implementation tears down a
recursive structure iteratively with a heap-allocated work list instead of
recursive destructor calls.

Modelling choices:

* A `Container` is modelled as an inductive tree node carrying `count`, the
  ownership count observed at the moment the container is consumed
  (`Box` containers always have `count = 1`; `Rc`/`Arc` containers have the
  strong count), and the list of containers directly owned by the value
  inside it.  Being an inductive type, every `Container` is a finite,
  acyclic ownership tree — exactly the crate's documented precondition.
* `Container.into_option_inner` embeds the `IntoOptionInner` adapters: the
  value is extracted iff the ownership count is exactly 1 (`Box::into_option_inner`
  returns `Some(*self)` and `Box` always has count 1; `Rc::into_inner` /
  `Arc::into_inner` return `Some` iff the strong count is 1).
* `Value.destruct` embeds `Recursive::destruct`: it yields the containers
  directly owned by the value, in order.
* The `Drop` implementation (`impl Drop for FlatDrop`, lib.rs lines 51-68)
  is embedded as `dropLoop`, producing the trace of teardown events.  The
  Rust `Vec` work list is represented as a Lean `List` whose HEAD is the
  END of the vector (the most recently pushed element), so `Vec::pop` is
  list head removal and `Vec::extend(it)` prepends the items of `it` in
  reverse order.
-/

namespace FlatDropLib

/-- A container of a recursive value, as consumed by the teardown algorithm.
`count` is the ownership count at the moment of consumption (always 1 for
`Box`); `children` are the containers directly owned by the contained value
(what `Recursive::destruct` yields for it). -/
inductive Container : Type where
  | mk (count : Nat) (children : List Container)

/-- The ownership count of a container. -/
def Container.count : Container → Nat
  | .mk n _ => n

/-- The containers directly owned by the value inside a container. -/
def Container.children : Container → List Container
  | .mk _ cs => cs

/-- A recursive value (`K::Inner` where `K::Inner : Recursive`), identified
by the containers it directly owns. -/
structure Value : Type where
  children : List Container

/-- Embedding of `Recursive::destruct` (lib.rs lines 11-15): consume the value and yield
the containers it directly owns. -/
def Value.destruct (v : Value) : List Container := v.children

/-- Embedding of `IntoOptionInner::into_option_inner` (lib.rs lines 73-95): extraction
succeeds iff this is the sole owner.  `Box<T>` (count 1 structurally) always
yields `Some(*self)`; `Rc::into_inner` / `Arc::into_inner` yield the value
iff the strong count was exactly 1. -/
def Container.into_option_inner : Container → Option Value
  | .mk count children => if count = 1 then some ⟨children⟩ else none

/-- Total node count of a list of ownership trees; the termination measure
of the teardown loop. -/
def sizes : List Container → Nat
  | [] => 0
  | .mk _ cs :: rest => 1 + sizes cs + sizes rest

/-- Number of nodes of the ownership tree rooted at a single container. -/
def Container.size (c : Container) : Nat := sizes [c]

/-- A teardown event recorded by the embedded drop loop.  `extracted c`
means extraction on `c` succeeded and `destruct` was applied to the obtained
value; `discarded c` means extraction on `c` yielded nothing and the
container was discarded without decomposition. -/
inductive Event : Type where
  | extracted (c : Container)
  | discarded (c : Container)

/-- The `while let Some(container) = to_drop.pop()` loop of
`impl Drop for FlatDrop` (lib.rs lines 61-65), as a function from the work
list (head = top of the `Vec`) to the trace of teardown events.
`to_drop.extend(value.destruct())` pushes children in iterator order, so in
the head-is-top representation it prepends `v.destruct.reverse`. -/
def dropLoop (stack : List Container) : List Event :=
  match stack with
  | [] => []
  | c :: rest =>
    match h : c.into_option_inner with
    | some v => Event.extracted c :: dropLoop (v.destruct.reverse ++ rest)
    | none => Event.discarded c :: dropLoop rest
termination_by sizes stack
decreasing_by
  · rcases c with ⟨count, ch⟩
    rcases v with ⟨vch⟩
    rw [Container.into_option_inner] at h
    have hsum : ∀ l1 l2 : List Container, sizes (l1 ++ l2) = sizes l1 + sizes l2 := by
      intro l1 l2
      induction l1 with
      | nil => simp [sizes]
      | cons a l ih =>
        rcases a with ⟨n, cs⟩
        simp [sizes, ih]
        omega
    have hrev : ∀ l : List Container, sizes l.reverse = sizes l := by
      intro l
      induction l with
      | nil => rfl
      | cons a l ih =>
        rcases a with ⟨n, cs⟩
        rw [List.reverse_cons, hsum]
        simp [sizes, ih]
        omega
    split at h
    · cases h
      rw [hsum, hrev]
      simp [Value.destruct, sizes]
    · cases h
  · rcases c with ⟨count, ch⟩
    simp [sizes]

/-- One iteration of the teardown loop as a plain (non-recursive) step
function on the work list: the body of the `while let` in
`impl Drop for FlatDrop` (lib.rs lines 61-65).  On the empty work list it is
the identity (the loop has terminated). -/
def dropStep (stack : List Container) : List Container :=
  match stack with
  | [] => []
  | c :: rest =>
    match c.into_option_inner with
    | some v => v.destruct.reverse ++ rest
    | none => rest

/-- Embedding of `FlatDrop<K>` (lib.rs lines 39-44): a transparent wrapper holding one
container in a `ManuallyDrop` field.  A Lean value of this type corresponds
to a Rust wrapper in the *active* state; the *consumed* state corresponds to
the value having been moved out (`into_inner` + `mem::forget`, or the end of
`drop`), after which no wrapper value exists any more. -/
structure FlatDrop : Type where
  inner : Container

/-- Embedding of `FlatDrop::new` (lib.rs lines 102-104): wrap a container; the result is
active. -/
def FlatDrop.new (container : Container) : FlatDrop := ⟨container⟩

/-- Embedding of `FlatDrop::into_inner` (lib.rs lines 106-113): take the container out of
the `ManuallyDrop` slot and `mem::forget` the shell, so `drop` never runs.
The held container is returned untouched. -/
def FlatDrop.into_inner (w : FlatDrop) : Container := w.inner

/-- Embedding of `impl Drop for FlatDrop` (lib.rs lines 51-68): move the held container
out of the wrapper, seed the work list with it, and run the loop; returns
the trace of teardown events. -/
def FlatDrop.drop (w : FlatDrop) : List Event := dropLoop [w.inner]

/-- The two ways a wrapper is consumed: explicitly by `into_inner`, or
implicitly by `drop` when the owner destroys it. -/
inductive ConsumePath : Type where
  | viaIntoInner
  | viaDrop

/-- Consuming a wrapper along one of its two paths.  `into_inner` returns
the container and performs no teardown events (after `ManuallyDrop::take`
the shell is forgotten); `drop` returns no container and performs the
teardown trace. -/
def FlatDrop.consume (w : FlatDrop) : ConsumePath → Option Container × List Event
  | .viaIntoInner => (some w.inner, [])
  | .viaDrop => (none, FlatDrop.drop w)

/-! ### Spec-side rendering of the teardown algorithm (for refinement C1)

The following definitions follow the WORDS of spec §4.3 ("Algorithm
(teardown)"), to be compared with the source embedding `FlatDrop.drop`:
a LIFO work list (head = most recently added), initialized with the one
container moved out of the wrapper; while non-empty, remove the most
recently added container and apply extraction; on success apply
decomposition and append every resulting child to the work list; on failure
discard the container. -/

/-- Spec §4.3: add one container to the LIFO work list (it becomes the most
recently added element). -/
def specPush (worklist : List Container) (c : Container) : List Container :=
  c :: worklist

/-- Spec §4.3 step 3, rendered from the spec's words: while the work list is
non-empty, remove the most recently added container, apply extraction; if it
yields a value, apply decomposition and append every resulting child to the
work list in sequence; if it yields nothing, discard the container. -/
def specLoop (worklist : List Container) : List Event :=
  match worklist with
  | [] => []
  | c :: rest =>
    match h : c.into_option_inner with
    | some v => Event.extracted c :: specLoop (v.destruct.foldl specPush rest)
    | none => Event.discarded c :: specLoop rest
termination_by sizes worklist
decreasing_by
  · rcases c with ⟨count, ch⟩
    rcases v with ⟨vch⟩
    rw [Container.into_option_inner] at h
    have hsum : ∀ l1 l2 : List Container, sizes (l1 ++ l2) = sizes l1 + sizes l2 := by
      intro l1 l2
      induction l1 with
      | nil => simp [sizes]
      | cons a l ih =>
        rcases a with ⟨n, cs⟩
        simp [sizes, ih]
        omega
    have hfold : ∀ (l acc : List Container), (l.foldl specPush acc) = l.reverse ++ acc := by
      intro l
      induction l with
      | nil => intro acc; simp
      | cons a l ih =>
        intro acc
        rw [List.foldl_cons, ih, List.reverse_cons, List.append_assoc]
        rfl
    have hrev : ∀ l : List Container, sizes l.reverse = sizes l := by
      intro l
      induction l with
      | nil => rfl
      | cons a l ih =>
        rcases a with ⟨n, cs⟩
        rw [List.reverse_cons, hsum]
        simp [sizes, ih]
        omega
    split at h
    · cases h
      rw [hfold, hsum, hrev]
      simp [Value.destruct, sizes]
    · cases h
  · rcases c with ⟨count, ch⟩
    simp [sizes]

/-- Spec §4.3 steps 1-4, rendered from the spec's words: move the held
container out of the wrapper and run the loop on the work list initialized
with that one container. -/
def specDrop (w : FlatDrop) : List Event := specLoop (specPush [] w.inner)

/-! ### The built-in adapters (lib.rs lines 73-95), with the standard
library pointer types modelled explicitly. -/

/-- Embedding of `Box<T>`: an exclusive-owner pointer holding one value. -/
structure BoxPtr (T : Type) : Type where
  val : T

/-- Embedding of `impl IntoOptionInner for Box<T>` (lib.rs lines 73-79):
`Some(*self)` — always returns the owned value. -/
def BoxPtr.into_option_inner {T : Type} (b : BoxPtr T) : Option T :=
  some b.val

/-- The state of an `Rc<T>` allocation as seen from one handle: the strong
count at the moment the handle is consumed, and the owned value. -/
structure RcPtr (T : Type) : Type where
  strong : Nat
  value : T

/-- Modelled from the spec: `Rc::into_inner` is standard-library code not in
`src/` (lib.rs line 85 merely delegates to it).  Per the spec's extraction
table, it "returns the value only if the count was exactly 1 at
consumption". -/
def RcPtr.into_inner {T : Type} (r : RcPtr T) : Option T :=
  if r.strong = 1 then some r.value else none

/-- Modelled from the spec: the shared allocation left behind by
`Rc::into_inner`.  When the count was exactly 1 the allocation is gone
(`none`); otherwise the only effect is the ordinary ownership-count
decrement, and the owned value is not dropped. -/
def RcPtr.into_inner_heap {T : Type} (r : RcPtr T) : Option (RcPtr T) :=
  if r.strong = 1 then none else some ⟨r.strong - 1, r.value⟩

/-- The state of an `Arc<T>` allocation as seen from one handle: the atomic
strong count at the moment the handle is consumed, and the owned value. -/
structure ArcPtr (T : Type) : Type where
  strong : Nat
  value : T

/-- Modelled from the spec: `Arc::into_inner` is standard-library code not
in `src/` (lib.rs line 93 merely delegates to it).  Per the spec's
extraction table, it "returns the value only if the atomic count was exactly
1 at consumption". -/
def ArcPtr.into_inner {T : Type} (a : ArcPtr T) : Option T :=
  if a.strong = 1 then some a.value else none

/-- Modelled from the spec: the shared allocation left behind by
`Arc::into_inner`; as for `RcPtr.into_inner_heap`, failure leaves the value
alive with the count decremented. -/
def ArcPtr.into_inner_heap {T : Type} (a : ArcPtr T) : Option (ArcPtr T) :=
  if a.strong = 1 then none else some ⟨a.strong - 1, a.value⟩

/-! ### Serialization adapter (lib.rs lines 199-227). -/

/-- Embedding of `impl Serialize for FlatDrop` (lib.rs lines 199-213): serialize the
wrapper by serializing the held container `K` through deref —
`<K as Serialize>::serialize(self, serializer)`.  `encodeK` stands for the
container type's own `Serialize` implementation. -/
def FlatDrop.serialize {E : Type} (encodeK : Container → E) (w : FlatDrop) : E :=
  encodeK w.inner

/-- Embedding of `impl Deserialize for FlatDrop` (lib.rs lines 215-227): deserialize a
container with `K`'s own `Deserialize` implementation (`decodeK`) and wrap
the result with `Self::new`. -/
def FlatDrop.deserialize {E : Type} (decodeK : E → Option Container) (e : E) :
    Option FlatDrop :=
  (decodeK e).map FlatDrop.new

/-! ### The `ManuallyDrop` slot discipline (safety claim C10). -/

/-- The `ManuallyDrop<K>` field of the wrapper: `some` while the container
is still initialized, `none` once it has been taken. -/
def Slot : Type := Option Container

/-- Embedding of `ManuallyDrop::take` (used at lib.rs lines 55 and 109): defined only on
a still-initialized slot; taking from an already-taken slot is undefined
behaviour, modelled as `none`. -/
def takeSlot (s : Slot) : Option (Container × Slot) :=
  match s with
  | some c => some (c, none)
  | none => none

/-- The drop glue of a `ManuallyDrop` field: a no-op — it never drops the
contained container (lib.rs line 67: "The drop glue will be a no-op since
the field is `ManuallyDrop`").  Returns the containers it drops: none. -/
def manuallyDropGlue (s : Slot) : List Container :=
  match s with
  | some _ => []
  | none => []

/-- The `into_inner` path (lib.rs lines 106-113) starting from an active
wrapper holding `c`: `ManuallyDrop::take` from the slot, then `mem::forget`
on the shell, so the drop glue never runs.  Returns `none` on undefined
behaviour (a take from an uninitialized slot), otherwise the list of
containers moved out, in order. -/
def intoInnerPath (c : Container) : Option (List Container) :=
  (takeSlot (some c)).map fun p => [p.1]

/-- The implicit-drop path (lib.rs lines 51-68) starting from an active
wrapper holding `c`: `ManuallyDrop::take` from the slot, then the teardown
loop consumes the taken container, then the shell's field glue runs (a
no-op).  Returns `none` on undefined behaviour, otherwise the list of
containers moved out of the slot, in order. -/
def dropPath (c : Container) : Option (List Container) :=
  (takeSlot (some c)).map fun p => [p.1] ++ manuallyDropGlue p.2

/-! ### Concrete structures used by the claims. -/

/-- A chain of exclusively-owned (`Box`, count 1) nodes: `boxChain n` is the
head of a chain of `n + 1` nodes, matching the crate's Peano `Natural` test
type (`Succ(FlatDrop<Box<Natural>>)` / `Zero`). -/
def boxChain : Nat → Container
  | 0 => .mk 1 []
  | n + 1 => .mk 1 [boxChain n]

mutual

/-- All containers of an ownership tree: the root and, recursively, the
containers of every subtree, in depth-first order. -/
def subContainers : Container → List Container
  | .mk n cs => .mk n cs :: subContainersList cs

/-- All containers of a list of ownership trees. -/
def subContainersList : List Container → List Container
  | [] => []
  | c :: cs => subContainers c ++ subContainersList cs

end

/-! ## Helper lemmas -/

theorem sizes_append (l1 l2 : List Container) :
    sizes (l1 ++ l2) = sizes l1 + sizes l2 := by
  induction l1 with
  | nil => simp [sizes]
  | cons a l ih =>
    rcases a with ⟨n, cs⟩
    simp [sizes, ih]
    omega

theorem sizes_reverse (l : List Container) : sizes l.reverse = sizes l := by
  induction l with
  | nil => rfl
  | cons a l ih =>
    rcases a with ⟨n, cs⟩
    rw [List.reverse_cons, sizes_append]
    simp [sizes, ih]
    omega

theorem foldl_specPush (l acc : List Container) :
    l.foldl specPush acc = l.reverse ++ acc := by
  induction l generalizing acc with
  | nil => simp
  | cons a l ih =>
    rw [List.foldl_cons, ih, List.reverse_cons, List.append_assoc]
    rfl

theorem into_option_inner_one (ch : List Container) :
    (Container.mk 1 ch).into_option_inner = some ⟨ch⟩ := by
  simp [Container.into_option_inner]

theorem into_option_inner_ne_one {n : Nat} (ch : List Container) (h : n ≠ 1) :
    (Container.mk n ch).into_option_inner = none := by
  simp [Container.into_option_inner, h]

theorem dropLoop_nil : dropLoop [] = [] := by
  rw [dropLoop]

theorem dropLoop_extract (ch rest : List Container) :
    dropLoop (.mk 1 ch :: rest) =
      Event.extracted (.mk 1 ch) :: dropLoop (ch.reverse ++ rest) := by
  rw [dropLoop]
  split
  · next v hv =>
      rw [into_option_inner_one] at hv
      cases hv
      rfl
  · next hv =>
      rw [into_option_inner_one] at hv
      cases hv

theorem dropLoop_discard {n : Nat} (ch rest : List Container) (h : n ≠ 1) :
    dropLoop (.mk n ch :: rest) =
      Event.discarded (.mk n ch) :: dropLoop rest := by
  rw [dropLoop]
  split
  · next v hv =>
      rw [into_option_inner_ne_one ch h] at hv
      cases hv
  · next hv =>
      rfl

theorem specLoop_nil : specLoop [] = [] := by
  rw [specLoop]

theorem specLoop_extract (ch rest : List Container) :
    specLoop (.mk 1 ch :: rest) =
      Event.extracted (.mk 1 ch) :: specLoop (ch.reverse ++ rest) := by
  rw [specLoop]
  split
  · next v hv =>
      rw [into_option_inner_one] at hv
      cases hv
      rw [Value.destruct, foldl_specPush]
  · next hv =>
      rw [into_option_inner_one] at hv
      cases hv

theorem specLoop_discard {n : Nat} (ch rest : List Container) (h : n ≠ 1) :
    specLoop (.mk n ch :: rest) =
      Event.discarded (.mk n ch) :: specLoop rest := by
  rw [specLoop]
  split
  · next v hv =>
      rw [into_option_inner_ne_one ch h] at hv
      cases hv
  · next hv =>
      rfl

theorem dropLoop_eq_specLoop (stack : List Container) :
    dropLoop stack = specLoop stack := by
  induction stack using dropLoop.induct with
  | case1 => rw [dropLoop_nil, specLoop_nil]
  | case2 c rest v hv ih =>
      rcases c with ⟨n, ch⟩
      have hn : n = 1 := by
        by_contra hne
        rw [into_option_inner_ne_one ch hne] at hv
        cases hv
      subst hn
      rw [into_option_inner_one] at hv
      cases hv
      rw [dropLoop_extract, specLoop_extract]
      rw [Value.destruct] at ih
      rw [ih]
  | case3 c rest hv ih =>
      rcases c with ⟨n, ch⟩
      have hn : n ≠ 1 := by
        intro hne
        subst hne
        rw [into_option_inner_one] at hv
        cases hv
      rw [dropLoop_discard ch rest hn, specLoop_discard ch rest hn, ih]

theorem subContainers_mk (n : Nat) (cs : List Container) :
    subContainers (.mk n cs) = .mk n cs :: subContainersList cs := by
  rw [subContainers]

theorem subContainersList_nil : subContainersList [] = [] := by
  rw [subContainersList]

theorem subContainersList_cons (c : Container) (cs : List Container) :
    subContainersList (c :: cs) = subContainers c ++ subContainersList cs := by
  rw [subContainersList]

theorem boxChain_zero : boxChain 0 = .mk 1 [] := rfl

theorem boxChain_succ (n : Nat) : boxChain (n + 1) = .mk 1 [boxChain n] := rfl

theorem subContainers_boxChain_zero : subContainers (boxChain 0) = [boxChain 0] := by
  rw [boxChain_zero, subContainers_mk, subContainersList_nil]

theorem subContainers_boxChain_succ (n : Nat) :
    subContainers (boxChain (n + 1)) = boxChain (n + 1) :: subContainers (boxChain n) := by
  rw [boxChain_succ, subContainers_mk, subContainersList_cons, subContainersList_nil,
    List.append_nil]

theorem sizes_nil : sizes [] = 0 := by
  rw [sizes.eq_def]

theorem sizes_cons (n : Nat) (cs rest : List Container) :
    sizes (.mk n cs :: rest) = 1 + sizes cs + sizes rest := by
  rw [sizes.eq_def]

theorem dropStep_cons (c : Container) (rest : List Container) :
    dropStep (c :: rest) =
      match c.into_option_inner with
      | some v => v.destruct.reverse ++ rest
      | none => rest := rfl

theorem dropStep_extract (ch rest : List Container) :
    dropStep (.mk 1 ch :: rest) = ch.reverse ++ rest := by
  rw [dropStep_cons, into_option_inner_one]
  rfl

theorem dropStep_discard {n : Nat} (ch rest : List Container) (h : n ≠ 1) :
    dropStep (.mk n ch :: rest) = rest := by
  rw [dropStep_cons, into_option_inner_ne_one ch h]

theorem dropLoop_boxChain (n : Nat) :
    dropLoop [boxChain n] = (subContainers (boxChain n)).map Event.extracted := by
  induction n with
  | zero =>
      rw [subContainers_boxChain_zero, boxChain_zero, dropLoop_extract]
      rw [List.reverse_nil, List.nil_append, dropLoop_nil]
      rfl
  | succ n ih =>
      rw [subContainers_boxChain_succ, boxChain_succ, dropLoop_extract]
      simp only [List.reverse_cons, List.reverse_nil, List.nil_append,
        List.append_nil, List.map_cons]
      rw [ih]

theorem length_subContainers_boxChain (n : Nat) :
    (subContainers (boxChain n)).length = n + 1 := by
  induction n with
  | zero => rw [subContainers_boxChain_zero]; rfl
  | succ n ih => rw [subContainers_boxChain_succ, List.length_cons, ih]

theorem size_boxChain (n : Nat) : (boxChain n).size = n + 1 := by
  induction n with
  | zero =>
      rw [boxChain_zero, Container.size, sizes_cons, sizes_nil]
  | succ n ih =>
      rw [Container.size] at ih
      rw [boxChain_succ, Container.size, sizes_cons, sizes_nil]
      omega

theorem size_mem_subContainers_boxChain (n : Nat) :
    ∀ x ∈ subContainers (boxChain n), x.size ≤ n + 1 := by
  induction n with
  | zero =>
      intro x hx
      rw [subContainers_boxChain_zero, List.mem_singleton] at hx
      subst hx
      rw [size_boxChain]
  | succ n ih =>
      intro x hx
      rw [subContainers_boxChain_succ, List.mem_cons] at hx
      rcases hx with hx | hx
      · subst hx
        rw [size_boxChain]
      · have := ih x hx
        omega

theorem nodup_subContainers_boxChain (n : Nat) :
    (subContainers (boxChain n)).Nodup := by
  induction n with
  | zero =>
      rw [subContainers_boxChain_zero]
      exact List.nodup_singleton _
  | succ n ih =>
      rw [subContainers_boxChain_succ, List.nodup_cons]
      refine ⟨fun hmem => ?_, ih⟩
      have hle := size_mem_subContainers_boxChain n _ hmem
      rw [size_boxChain] at hle
      omega

theorem dropStep_iterate_empties (stack : List Container) :
    dropStep^[(dropLoop stack).length] stack = [] := by
  induction stack using dropLoop.induct with
  | case1 => rw [dropLoop_nil]; rfl
  | case2 c rest v hv ih =>
      rcases c with ⟨n, ch⟩
      have hn : n = 1 := by
        by_contra hne
        rw [into_option_inner_ne_one ch hne] at hv
        cases hv
      subst hn
      rw [into_option_inner_one] at hv
      cases hv
      rw [dropLoop_extract, List.length_cons, Function.iterate_succ_apply]
      have hstep : dropStep (.mk 1 ch :: rest) = ch.reverse ++ rest := rfl
      rw [hstep]
      rw [Value.destruct] at ih
      exact ih
  | case3 c rest hv ih =>
      rcases c with ⟨n, ch⟩
      have hn : n ≠ 1 := by
        intro hne
        subst hne
        rw [into_option_inner_one] at hv
        cases hv
      rw [dropLoop_discard ch rest hn, List.length_cons, Function.iterate_succ_apply]
      rw [dropStep_discard ch rest hn]
      exact ih

theorem length_dropLoop_boxChain (n : Nat) :
    (dropLoop [boxChain n]).length = n + 1 := by
  rw [dropLoop_boxChain, List.length_map, length_subContainers_boxChain]

/-! ## Claim theorems -/

/-- C1: when an active wrapper is destroyed implicitly, its teardown runs
the work-list algorithm exactly as the spec states it: the held container is
moved out first, a LIFO work list is initialized containing that one
container, and while it is non-empty the most recently added container is
removed and extraction applied; on success decomposition is applied to the
value and every resulting child appended to the work list, on failure the
container is discarded with no decomposition and no descent.  The source
embedding `FlatDrop.drop` and the spec-side rendering `specDrop` produce
identical event traces on every wrapper. -/
theorem drop_runs_spec_worklist_algorithm (w : FlatDrop) :
    FlatDrop.drop w = specDrop w := by
  rw [FlatDrop.drop, specDrop, specPush, dropLoop_eq_specLoop]

/-- C2: for a chain of `n + 1` exclusively-owned (`Box`, count 1) nodes,
dropping the wrapped head produces exactly one extraction-and-`destruct`
event per container of the chain, in particular `n + 1` decomposition calls
and `n + 1` container destructions; the destroyed containers are exactly the
chain's containers, pairwise distinct (none decomposed twice) and complete
(none skipped, no leak). -/
theorem boxChain_teardown_exactly_once (n : Nat) :
    FlatDrop.drop (FlatDrop.new (boxChain n)) =
      (subContainers (boxChain n)).map Event.extracted ∧
    (subContainers (boxChain n)).length = n + 1 ∧
    (subContainers (boxChain n)).Nodup := by
  refine ⟨?_, length_subContainers_boxChain n, nodup_subContainers_boxChain n⟩
  exact dropLoop_boxChain n

/-- C3: teardown of a wrapped recursive structure needs no call-stack
recursion in the structure's depth: for every depth `D`, the teardown of the
depth-`D` chain is a flat iteration of the single non-recursive step
function `dropStep` — `D + 1` iterations empty the work list — so the
call-stack usage is one frame for the loop regardless of `D` (no
stack-overflow fault at any depth, e.g. `D = 500000`). -/
theorem teardown_constant_stack_depth (D : Nat) :
    dropStep^[(FlatDrop.drop (FlatDrop.new (boxChain D))).length] [boxChain D] = [] ∧
    (FlatDrop.drop (FlatDrop.new (boxChain D))).length = D + 1 :=
  ⟨dropStep_iterate_empties [boxChain D], length_dropLoop_boxChain D⟩

/-- C4: unwrapping a freshly wrapped container returns exactly that
container, with zero extraction or decomposition events in between, and the
teardown algorithm never runs for a wrapper consumed by `into_inner` (the
`viaIntoInner` consumption path yields the container with an empty event
trace). -/
theorem into_inner_new_roundtrip (c : Container) :
    FlatDrop.into_inner (FlatDrop.new c) = c ∧
    FlatDrop.consume (FlatDrop.new c) ConsumePath.viaIntoInner = (some c, []) :=
  ⟨rfl, rfl⟩

/-- C5: the built-in extraction adapter for the exclusive-owner pointer
`Box<T>` always returns the owned value: `into_option_inner` is
`Some(*self)`, never `None`. -/
theorem box_into_option_inner_always_some {T : Type} (b : BoxPtr T) :
    b.into_option_inner = some b.val ∧ b.into_option_inner ≠ none :=
  ⟨rfl, by rw [BoxPtr.into_option_inner]; exact fun h => Option.noConfusion h⟩

/-- Witness for C5 at a concrete input: a box holding `3` extracts to
`some 3`. -/
theorem box_into_option_inner_always_some_witness :
    BoxPtr.into_option_inner (⟨3⟩ : BoxPtr Nat) = some 3 :=
  (box_into_option_inner_always_some (⟨3⟩ : BoxPtr Nat)).1

/-- C6: the shared-owner extraction adapters (`Rc::into_inner`,
`Arc::into_inner`) return the owned value iff the ownership count was
exactly 1 at consumption; when the count was greater than 1 they return
nothing, the owned value is not dropped (the allocation survives, still
holding the value), and the only effect on shared state is the ordinary
ownership-count decrement. -/
theorem rc_arc_into_inner_iff_sole_owner {T : Type} (r : RcPtr T) (a : ArcPtr T) :
    (r.into_inner = some r.value ↔ r.strong = 1) ∧
    (2 ≤ r.strong → r.into_inner = none ∧
      r.into_inner_heap = some ⟨r.strong - 1, r.value⟩) ∧
    (a.into_inner = some a.value ↔ a.strong = 1) ∧
    (2 ≤ a.strong → a.into_inner = none ∧
      a.into_inner_heap = some ⟨a.strong - 1, a.value⟩) := by
  refine ⟨?_, ?_, ?_, ?_⟩
  · rw [RcPtr.into_inner]
    by_cases h : r.strong = 1 <;> simp [h]
  · intro h
    have h1 : r.strong ≠ 1 := by omega
    rw [RcPtr.into_inner, RcPtr.into_inner_heap]
    simp [h1]
  · rw [ArcPtr.into_inner]
    by_cases h : a.strong = 1 <;> simp [h]
  · intro h
    have h1 : a.strong ≠ 1 := by omega
    rw [ArcPtr.into_inner, ArcPtr.into_inner_heap]
    simp [h1]

/-- Witness for C6 at concrete inputs: an `Rc` with strong count 2 yields
nothing and leaves the value alive under count 1; an `Arc` with strong count
1 yields its value. -/
theorem rc_arc_into_inner_iff_sole_owner_witness :
    RcPtr.into_inner (⟨2, 7⟩ : RcPtr Nat) = none ∧
    RcPtr.into_inner_heap (⟨2, 7⟩ : RcPtr Nat) = some ⟨1, 7⟩ ∧
    ArcPtr.into_inner (⟨1, 5⟩ : ArcPtr Nat) = some 5 := by
  obtain ⟨h1, h2, h3, h4⟩ :=
    rc_arc_into_inner_iff_sole_owner (⟨2, 7⟩ : RcPtr Nat) (⟨1, 5⟩ : ArcPtr Nat)
  refine ⟨(h2 Nat.le.refl).1, ?_, h3.mpr rfl⟩
  exact (h2 Nat.le.refl).2

/-- C7: during teardown, a container popped from the work list that is still
shared with another live owner (count at least 2, so extraction returns
nothing) is discarded without decomposition, and the algorithm does not
descend into its subtree — the remaining trace is exactly that of the rest
of the work list.  Once the external reference is itself dropped (count
decremented by one), extraction succeeds precisely when this made the count
1, so only then does the subtree become eligible for teardown. -/
theorem shared_ownership_stops_descent (count : Nat) (ch rest : List Container)
    (h : 2 ≤ count) :
    dropLoop (.mk count ch :: rest) =
      Event.discarded (.mk count ch) :: dropLoop rest ∧
    (Container.mk count ch).into_option_inner = none ∧
    (Container.mk (count - 1) ch).into_option_inner =
      (if count = 2 then some ⟨ch⟩ else none) := by
  have hne : count ≠ 1 := by omega
  refine ⟨dropLoop_discard ch rest hne, into_option_inner_ne_one ch hne, ?_⟩
  by_cases h2 : count = 2
  · subst h2
    rw [into_option_inner_one]
    simp
  · have hne1 : count - 1 ≠ 1 := by omega
    rw [into_option_inner_ne_one ch hne1]
    simp [h2]

/-- Witness for C7 at a concrete input: a container with count 2 and one
child is discarded whole (one event, no descent into the child), and the
count-1 view left after the external owner drops extracts successfully. -/
theorem shared_ownership_stops_descent_witness :
    dropLoop [Container.mk 2 [Container.mk 1 []]] =
      [Event.discarded (Container.mk 2 [Container.mk 1 []])] ∧
    (Container.mk 1 [Container.mk 1 []]).into_option_inner =
      some ⟨[Container.mk 1 []]⟩ := by
  obtain ⟨h1, h2, h3⟩ :=
    shared_ownership_stops_descent 2 [Container.mk 1 []] [] (by omega)
  constructor
  · rw [h1, dropLoop_nil]
  · simpa using h3

/-- C8: the teardown work-list loop terminates on every container: since a
container of the embedding is a finite, acyclic ownership tree (the crate's
documented precondition, intrinsic to the inductive type), iterating the
loop's step function from the initial work list eventually reaches the empty
work list. -/
theorem teardown_terminates (c : Container) :
    ∃ n : Nat, dropStep^[n] [c] = [] :=
  ⟨(dropLoop [c]).length, dropStep_iterate_empties [c]⟩

/-- C9: the serialization adapter is pass-through: serializing a wrapper
produces exactly the encoding of its currently-held container, and
deserializing maps the decoded container straight into `FlatDrop.new` — a
wrapper in the active state holding the decoded container.  Neither
direction performs extraction or decomposition (both definitions are plain
data plumbing producing no teardown events). -/
theorem serde_pass_through {E : Type} (encodeK : Container → E)
    (decodeK : E → Option Container) (w : FlatDrop) (c : Container) (e : E) :
    FlatDrop.serialize encodeK w = encodeK w.inner ∧
    FlatDrop.serialize encodeK (FlatDrop.new c) = encodeK c ∧
    FlatDrop.deserialize decodeK e = (decodeK e).map FlatDrop.new :=
  ⟨rfl, rfl, rfl⟩

/-- C10: the inner container is consumed exactly once on every path: the
`ManuallyDrop::take` of an active wrapper always operates on a
still-initialized slot (never undefined behaviour), the `into_inner` path
(take then `mem::forget`) moves the container out exactly once with no
second drop, the implicit-drop path (take then teardown, then the field's
no-op drop glue) also moves it out exactly once, and the `ManuallyDrop` drop
glue never drops anything. -/
theorem manuallydrop_take_exactly_once (c : Container) :
    takeSlot (some c) = some (c, none) ∧
    intoInnerPath c = some [c] ∧
    dropPath c = some [c] ∧
    manuallyDropGlue none = [] :=
  ⟨rfl, rfl, rfl, rfl⟩

end FlatDropLib
